import Mathlib

/-!
Verification of the FTRepo scraper pipeline (shallow embedding).

The definitions below are translated from the Python sources of the
repository:

* `src/scraper.py` — `compare_versions`, the Pass-1 deduplication loop and
  the Pass-2 merge inside `update_repo_json`, the republish asset check,
  and the `best_tweak` reconciliation.
* `src/clean_duplicates.py` — `extract_tweak_from_filename`,
  `is_tweak_in_list`, and the AI duplicate-group validation inside
  `check_all_release_assets_with_ai`.
* `src/convert_to_altstore.py` — `extract_tweak_from_name`,
  `create_unique_bundle_id`, `convert_app_to_altstore_format`.

Modelling conventions:

* Python strings are Lean `String` (a structure over `List Char`); the
  character-level helpers work on `List Char`.
* Python `str.isdigit`, `re` word characters `\w`, `str.lower` and
  `urllib.parse.unquote` are modelled at the ASCII level (the Python
  originals are Unicode-aware; every concrete input appearing in a theorem
  below is ASCII, where the two notions coincide).
* `try`/`except` is modelled by an `Option`-valued body: `none` marks the
  raise of an exception, and the caller pattern-matches to run the
  `except` branch, so the modelled functions are total by construction,
  exactly like the Python originals which catch every exception.
* Python `dict` (insertion-ordered) is an association list: inserting a
  new key appends, updating an existing key replaces the value in place.
* External effects (Telegram, the AI service, GitHub storage) enter the
  model only through their returned data (AI metadata records, asset
  listings, an abstract builder for freshly uploaded entries).
-/

namespace FTRepo

/-! ### Character/string primitives shared by the Python translations -/

/-- `re.split` on a single-character class: split `l` at every character
satisfying `p`, keeping empty segments (as Python's `re.split` does). -/
def splitOn (p : Char → Bool) : List Char → List (List Char)
  | [] => [[]]
  | c :: cs =>
    if p c then [] :: splitOn p cs
    else
      match splitOn p cs with
      | [] => [[c]]
      | t :: ts => (c :: t) :: ts

/-- Python `str.split()` with no argument: split on whitespace runs,
discarding empty segments. -/
def pyWords (l : List Char) : List (List Char) :=
  (splitOn Char.isWhitespace l).filter (fun w => w ≠ [])

/-- Python `str.isdigit` (ASCII model): nonempty and all characters are
decimal digits. -/
def pyIsdigit (l : List Char) : Bool :=
  !l.isEmpty && l.all Char.isDigit

/-- Python `int(x)` on a string of decimal digits. -/
def natOfDigits (l : List Char) : Nat :=
  l.foldl (fun n c => 10 * n + (c.toNat - 48)) 0

/-- Python `<` on lists of integers (lexicographic, shorter prefix is
smaller). -/
def natListLt : List Nat → List Nat → Bool
  | [], [] => false
  | [], _ :: _ => true
  | _ :: _, [] => false
  | a :: as, b :: bs => if a < b then true else if b < a then false else natListLt as bs

/-- Python `>` on lists of integers. -/
def natListGt (a b : List Nat) : Bool := natListLt b a

/-- Python `<` on strings (lexicographic by code point). -/
def charListLt : List Char → List Char → Bool
  | [], [] => false
  | [], _ :: _ => true
  | _ :: _, [] => false
  | a :: as, b :: bs => if a < b then true else if b < a then false else charListLt as bs

/-- Python `str(v1) > str(v2)`. -/
def pyStrGt (v1 v2 : String) : Bool := charListLt v2.data v1.data

/-- Python `str.lower` (ASCII model). -/
def lowerStr (s : String) : String := ⟨s.data.map Char.toLower⟩

/-! ### `compare_versions` (src/scraper.py lines 1350-1385) -/

/-- The timestamp tie-break of `compare_versions`: if both timestamps are
provided, the strictly greater one wins; otherwise no preference. -/
def tieBreak (t1 t2 : Option Int) : Bool :=
  match t1, t2 with
  | some a, some b => decide (a > b)
  | _, _ => false

/-- The token extraction inside the `try` body of `compare_versions`:
`[int(x) for x in re.split(r'[.-]', v.split()[0]) if x.isdigit()]`.
`none` models the `IndexError` raised by `v.split()[0]` when the string
has no whitespace-delimited word. -/
def parseParts (l : List Char) : Option (List Nat) :=
  match pyWords l with
  | [] => none
  | w :: _ => some (((splitOn (fun c => c = '.' || c = '-') w).filter pyIsdigit).map natOfDigits)

/-- Right-pad `p` with zeros to length `n` (`v_parts.extend([0] * (max_len - len(v_parts)))`). -/
def padZeros (p : List Nat) (n : Nat) : List Nat :=
  p ++ List.replicate (n - p.length) 0

/-- `compare_versions(v1, v2, timestamp1, timestamp2)` from `src/scraper.py`:
returns `true` iff `v1` is considered newer than `v2`. The `try` body
splits off the first whitespace-delimited word, keeps the numeric
`[.-]`-tokens, zero-pads to equal length and compares; equal tuples fall
to the timestamp tie-break. Any exception (modelled: the `IndexError` of
`v.split()[0]` on a whitespace-only string) falls back to plain string
comparison with the same tie-break. -/
def compare_versions (v1 v2 : String) (timestamp1 timestamp2 : Option Int) : Bool :=
  match parseParts v1.data, parseParts v2.data with
  | some p1, some p2 =>
    let m := max p1.length p2.length
    let q1 := padZeros p1 m
    let q2 := padZeros p2 m
    if q1 = q2 then tieBreak timestamp1 timestamp2
    else natListGt q1 q2
  | _, _ =>
    if v1 = v2 then tieBreak timestamp1 timestamp2
    else pyStrGt v1 v2

/-! ### The spec's reference version comparison (spec.md §4.1)

Modelled from the spec's words, for comparison with `compare_versions`:
"split each version on `.` and `-`; keep only numeric tokens, in order
...; right-pad the shorter token sequence with zeros ...; compare
lexicographically as integer tuples. If the tuples are equal and both
timestamps are provided, the variant with the strictly greater timestamp
is newer; if tuples are equal and timestamps are unavailable, neither is
newer." Unlike the code, this definition splits the whole version string,
not just its first whitespace-delimited word. -/

/-- Numeric tokens of a whole version string, per the spec's words. -/
def specNumericParts (v : String) : List Nat :=
  ((splitOn (fun c => c = '.' || c = '-') v.data).filter pyIsdigit).map natOfDigits

/-- The spec's reference `isNewer`, on versions that parse (no fallback
branch is involved inside the claim's scope). -/
def specIsNewer (v1 v2 : String) (t1 t2 : Option Int) : Bool :=
  let p1 := specNumericParts v1
  let p2 := specNumericParts v2
  let m := max p1.length p2.length
  let q1 := padZeros p1 m
  let q2 := padZeros p2 m
  if q1 = q2 then tieBreak t1 t2
  else natListGt q1 q2

/-! ### Association lists with Python-`dict` semantics -/

/-- Python `d[k]` / `k in d`: first binding of `k`. -/
def lookupA {α : Type} : List (String × α) → String → Option α
  | [], _ => none
  | kv :: rest, k => if kv.1 = k then some kv.2 else lookupA rest k

/-- Python `d[k] = v` on a present key: replace the first binding of `k`
in place (insertion order is preserved, as for a Python `dict`). -/
def updateA {α : Type} : List (String × α) → String → α → List (String × α)
  | [], _, _ => []
  | kv :: rest, k, v => if kv.1 = k then (k, v) :: rest else kv :: updateA rest k v

/-! ### Pass 1 of the deduplication engine
(src/scraper.py, `update_repo_json`, lines 1680-1754)

An `Obs` is one reconciled observation at the point where the loop body
reaches the dedup step: `bundle_id` and `app_version` come from `info`,
`tweak` is `best_tweak`, `timestamp` is `message_timestamp` (an `int`,
defaulting to 0), `filename` is the downloaded IPA's name. Presentational
fields (`source`, `message`, `ai_description`) play no role in the
claims and are omitted. -/

structure Obs where
  bundle_id : String
  version : String
  tweak : Option String
  filename : String
  timestamp : Int
deriving DecidableEq, Repr

/-- The value stored in `apps_by_bundle` for a fresh observation. -/
structure P1Entry where
  filename : String
  version : String
  tweak : Option String
  timestamp : Int
  old_filename : Option String
deriving DecidableEq, Repr

/-- `unique_app_key`: `f"{bundle_id}:{best_tweak}" if best_tweak else bundle_id`
(Python truthiness: an empty tweak string also selects the bare key). -/
def unique_app_key (o : Obs) : String :=
  match o.tweak with
  | some t => if t = "" then o.bundle_id else o.bundle_id ++ ":" ++ t
  | none => o.bundle_id

/-- Pass-1 state: the running `apps_by_bundle` map restricted to fresh
entries, together with the list of local binary files removed by
`os.remove` when a resident is superseded. -/
structure P1State where
  map : List (String × P1Entry)
  deleted : List String
deriving DecidableEq, Repr

/-- One iteration of the Pass-1 loop: insert a first occurrence; on a key
collision, replace the resident iff `compare_versions(candidate, resident,
candidate_ts, resident_ts)` holds, deleting the resident's binary and
remembering it as `old_filename`; otherwise discard the candidate. -/
def pass1step (s : P1State) (o : Obs) : P1State :=
  let k := unique_app_key o
  match lookupA s.map k with
  | some e =>
    if compare_versions o.version e.version (some o.timestamp) (some e.timestamp) then
      { map := updateA s.map k ⟨o.filename, o.version, o.tweak, o.timestamp, some e.filename⟩,
        deleted := s.deleted ++ [e.filename] }
    else s
  | none =>
    { map := s.map ++ [(k, ⟨o.filename, o.version, o.tweak, o.timestamp, none⟩)],
      deleted := s.deleted }

/-- The whole Pass-1 loop over the incoming observations. -/
def pass1 (obs : List Obs) : P1State :=
  obs.foldl pass1step ⟨[], []⟩

/-! ### `best_tweak` reconciliation
(src/scraper.py, lines 1438-1488 and 1590-1592)

`extract_metadata_with_ai` returns `None` or a record whose fields were
already `'null'`-normalised by `_extract_with_model`. In the loop body,
`tweak_from_filename` is hard-coded to `None` (filename tweak detection
is disabled), so `best_tweak = tweak_from_message or None`; an empty
message text skips AI extraction entirely. -/

structure AIMeta where
  app_name : Option String
  version : Option String
  tweak_name : Option String
  bundle_id : Option String
  description : Option String
deriving DecidableEq, Repr

/-- `best_tweak` as computed by the loop body, given the message text and
the AI extraction result (`none` models a failed extraction). -/
def best_tweak (message_text : String) (ai : Option AIMeta) : Option String :=
  if message_text = "" then none
  else
    match ai with
    | some m =>
      match m.tweak_name with
      | some t => if t = "" then none else some t
      | none => none
    | none => none

/-- `is_tweak_in_list(tweak_name, known_tweaks)` from
`src/clean_duplicates.py` lines 353-369: case-insensitive membership in
the Known-Tweak Registry (false on empty name or empty registry). -/
def is_tweak_in_list (tweak_name : String) (known_tweaks : List String) : Bool :=
  if tweak_name = "" ∨ known_tweaks = [] then false
  else known_tweaks.any (fun known => lowerStr known = lowerStr tweak_name)

/-! ### Pass 2 of the deduplication engine
(src/scraper.py, `update_repo_json`, lines 1756-1804) -/

/-- An entry of the previously published catalog, restricted to the fields
the merge and republish passes read (`name`, `bundleIdentifier`,
`version`, `downloadURL`); the other feed fields are carried opaquely by
the Python code and never inspected. -/
structure RepoApp where
  name : String
  bundleIdentifier : String
  version : String
  downloadURL : String
deriving DecidableEq, Repr

/-- The segment after the first `(` of `l`, or `none` when `l` has no
`(`. -/
def afterFirstOpen (l : List Char) : Option (List Char) :=
  match l.dropWhile (fun c => c ≠ '(') with
  | [] => none
  | _ :: rest => some rest

/-- `re.search(r'\(([^)]+)\)$', app_name)`: the name must end with `)`,
the matched `(` is the leftmost one with no further `)` between it and
that final `)` (the greedy `[^)]+` cannot cross a `)`, and `$` pins the
close to the end, so earlier start positions fail), and the content
between them must be nonempty. The search region `r` is therefore the
part of the name after its second-to-last `)` (or the whole body when
the final `)` is the only one). -/
def trailingParen (name : String) : Option String :=
  match name.data.reverse with
  | ')' :: revBody =>
    let r := (revBody.takeWhile (fun c => c ≠ ')')).reverse
    match afterFirstOpen r with
    | some content => if content = [] then none else some ⟨content⟩
    | none => none
  | _ => none

/-- The key computed for an existing catalog entry in Pass 2. -/
def existing_app_key (a : RepoApp) : String :=
  match trailingParen a.name with
  | some t => a.bundleIdentifier ++ ":" ++ t
  | none => a.bundleIdentifier

/-- A value of `apps_by_bundle` during Pass 2: either a fresh Pass-1
entry (`'info'` present) or a carried-forward existing entry
(`'existing'` present). -/
inductive P2Entry where
  | fresh (e : P1Entry)
  | existing (a : RepoApp)
deriving DecidableEq, Repr

/-- `apps_by_bundle[key]['version']`, defined for both entry shapes. -/
def entryVersion : P2Entry → String
  | .fresh e => e.version
  | .existing a => a.version

/-- One iteration of the Pass-2 merge over the existing catalog: a new key
is appended; on a collision the existing entry replaces the Pass-1 one
iff `compare_versions(existing_version, new_version)` (no timestamps)
holds, otherwise the Pass-1 entry is kept. -/
def pass2step (m : List (String × P2Entry)) (a : RepoApp) : List (String × P2Entry) :=
  let k := existing_app_key a
  match lookupA m k with
  | some e =>
    if compare_versions a.version (entryVersion e) none none then
      updateA m k (.existing a)
    else m
  | none => m ++ [(k, .existing a)]

/-- Lift the Pass-1 map into the Pass-2 map (same dict, same order). -/
def liftP1 (m : List (String × P1Entry)) : List (String × P2Entry) :=
  m.map (fun kv => (kv.1, .fresh kv.2))

/-- The whole Pass-2 merge loop. -/
def pass2 (m : List (String × P2Entry)) (existing_apps : List RepoApp) :
    List (String × P2Entry) :=
  existing_apps.foldl pass2step m

/-! ### Republish: the final build loop
(src/scraper.py, `update_repo_json`, lines 1827-1991) -/

/-- Hexadecimal value of a character, as `urllib.parse.unquote` accepts. -/
def hexVal (c : Char) : Option Nat :=
  if '0' ≤ c ∧ c ≤ '9' then some (c.toNat - 48)
  else if 'a' ≤ c ∧ c ≤ 'f' then some (c.toNat - 87)
  else if 'A' ≤ c ∧ c ≤ 'F' then some (c.toNat - 55)
  else none

/-- Decode one `%`-delimited segment: a valid leading hex pair becomes the
decoded character, anything else keeps the literal `%`. -/
def decodeSeg (seg : List Char) : List Char :=
  match seg with
  | a :: b :: rest =>
    match hexVal a, hexVal b with
    | some x, some y => Char.ofNat (16 * x + y) :: rest
    | _, _ => '%' :: seg
  | _ => '%' :: seg

/-- `urllib.parse.unquote` (ASCII/latin-1 model: each `%XX` pair becomes
the character with that code; multi-byte UTF-8 sequences are out of scope
for the filenames handled here). -/
def urlDecode (s : String) : String :=
  match splitOn (fun c => c = '%') s.data with
  | [] => ⟨[]⟩
  | first :: segs => ⟨first ++ (segs.map decodeSeg).flatten⟩

/-- `download_url.split('/')[-1]`: the last `/`-segment of a URL. -/
def lastSegment (s : String) : String :=
  ⟨(splitOn (fun c => c = '/') s.data).getLastD []⟩

/-- The carried-forward branch of the build loop: an existing entry is
appended unchanged iff it has a download URL and the URL-decoded filename
of that URL is among the fresh release assets; otherwise it is skipped
(with a log line only — no error is raised). -/
def keepExisting (assets : List String) (a : RepoApp) : Option RepoApp :=
  if a.downloadURL = "" then none
  else if urlDecode (lastSegment a.downloadURL) ∈ assets then some a
  else none

/-- The final build loop over `apps_by_bundle` in map order. The fresh
branch (upload to the release, App Store lookup, icon and description
assembly) is abstracted by `buildNew`: it returns the assembled feed
entry, or `none` when `upload_to_release` fails and the entry is skipped. -/
def buildFinalApps (buildNew : P1Entry → Option RepoApp) (assets : List String)
    (m : List (String × P2Entry)) : List RepoApp :=
  m.filterMap (fun kv =>
    match kv.2 with
    | .existing a => keepExisting assets a
    | .fresh e => buildNew e)

/-! ### Batch duplicate detector: filename tweak extraction and group
validation (src/clean_duplicates.py, lines 324-350 and 599-640) -/

/-- `\w` of Python `re` (ASCII model): letters, digits, underscore. -/
def wordish (c : Char) : Bool := c.isAlpha || c.isDigit || c = '_'

/-- Case-insensitive character equality (ASCII model of `re.IGNORECASE`). -/
def ciEq (a b : Char) : Bool := a.toLower = b.toLower

/-- Case-insensitive "starts with". -/
def ciLeads : List Char → List Char → Bool
  | [], _ => true
  | _ :: _, [] => false
  | a :: as, b :: bs => ciEq a b && ciLeads as bs

/-- Word-character status of an optional adjacent character (text edges
count as non-word, as for `\b`). -/
def wordishO : Option Char → Bool
  | none => false
  | some c => wordish c

/-- A `\b`-anchored, case-insensitive match of `tw` at the head of `fn`,
where `prev` is the character just before this position (if any): the
escaped tweak must be a case-insensitive prefix, and word-character
status must flip at both ends of the match. -/
def wbMatchHere (tw : List Char) (prev : Option Char) (fn : List Char) : Bool :=
  ciLeads tw fn &&
  (wordishO prev != wordishO fn.head?) &&
  (wordishO ((fn.take tw.length).getLast?) != wordishO ((fn.drop tw.length).head?))

/-- Scan all positions of the filename for a `\b`-anchored match. -/
def wbSearchAux (tw : List Char) : Option Char → List Char → Bool
  | _, [] => false
  | prev, c :: rest => wbMatchHere tw prev (c :: rest) || wbSearchAux tw (some c) rest

/-- `re.search(r'\b' + re.escape(tweak) + r'\b', filename, re.IGNORECASE)`
for a nonempty tweak. -/
def wordBoundaryContains (tw fn : String) : Bool :=
  wbSearchAux tw.data none fn.data

/-- `extract_tweak_from_filename(filename, known_tweaks)` from
`src/clean_duplicates.py`: the first registry tweak whose
word-boundary-anchored, case-insensitive pattern occurs in the filename. -/
def extract_tweak_from_filename (filename : String) (known_tweaks : List String) :
    Option String :=
  known_tweaks.find? (fun tweak => wordBoundaryContains tweak filename)

/-- One AI-proposed duplicate group, as read by the validation loop
(`group.get('keep', '')`, `group.get('delete', [])`; the `tweak_name` and
`reason` fields are carried but not consulted by the validation). -/
structure Group where
  keep : String
  delete : List String
  tweak_name : Option String
  reason : String
deriving DecidableEq, Repr

/-- Lowercased optional tweak, as the validation normalises both sides. -/
def lowerOpt : Option String → Option String
  | some t => some (lowerStr t)
  | none => none

/-- The per-group validation inside `check_all_release_assets_with_ai`:
the tweak implied by the `keep` filename must equal (case-insensitively)
the tweak implied by every `delete` filename. -/
def validateGroup (known_tweaks : List String) (g : Group) : Bool :=
  g.delete.all (fun d =>
    lowerOpt (extract_tweak_from_filename g.keep known_tweaks) =
      lowerOpt (extract_tweak_from_filename d known_tweaks))

/-- The validation pass over all AI-proposed groups: applied only when a
registry was loaded (`if known_tweaks and duplicate_groups:`); with an
empty registry the groups are returned unvalidated. Only the returned
groups drive storage deletions. -/
def validateGroups (known_tweaks : List String) (groups : List Group) : List Group :=
  if known_tweaks = [] then groups
  else groups.filter (validateGroup known_tweaks)

/-! ### AltStore conversion (src/convert_to_altstore.py) -/

/-- Python `str.rstrip()` (whitespace). -/
def stripTrailWs (l : List Char) : List Char :=
  (l.reverse.dropWhile Char.isWhitespace).reverse

/-- Python `str.strip()` (whitespace, both ends). -/
def stripWs (l : List Char) : List Char :=
  stripTrailWs (l.dropWhile Char.isWhitespace)

/-- The group-2 content of `re.match(r'^(.+?)\s*\(([^)]+)\)\s*$', app_name)`:
after discarding trailing whitespace the name must end with `)`; the
matched `(` is the leftmost `(` at position ≥ 1 with no further `)`
between it and that final `)` (the lazy `.+?` scans start positions left
to right and supplies the nonempty base, `\s*` bridges only whitespace —
which any base extension can absorb — and the greedy `[^)]+` cannot
cross a `)`); the content between the parentheses must be nonempty.
When the body before the final `)` contains no other `)` the search for
the `(` starts after the body's first character (a `(` at position 0
would leave the `.+?` base empty); otherwise every `(` after the
second-to-last `)` already sits at position ≥ 1. Returns the raw
(unstripped) content. -/
def lastParenContent (name : List Char) : Option (List Char) :=
  match (stripTrailWs name).reverse with
  | ')' :: revBody =>
    let body := revBody.reverse
    let r := (revBody.takeWhile (fun c => c ≠ ')')).reverse
    let searchRegion := if r.length = body.length then body.drop 1 else r
    match afterFirstOpen searchRegion with
    | some content => if content = [] then none else some content
    | none => none
  | _ => none

/-- `extract_tweak_from_name(app_name, known_tweaks)` from
`src/convert_to_altstore.py`: the parenthetical content is stripped and
compared case-insensitively against the registry; the first matching
registry entry is returned in its registry casing. (The Python function
also returns the base name, which `convert_app_to_altstore_format` never
uses; the model returns the tweak component.) -/
def extract_tweak_from_name (app_name : String) (known_tweaks : List String) :
    Option String :=
  match lastParenContent app_name.data with
  | some content =>
    known_tweaks.find? (fun tweak => lowerStr tweak = lowerStr ⟨stripWs content⟩)
  | none => none

/-- `create_unique_bundle_id(original_bundle_id, tweak_name)`: append the
lowercased tweak name, or return the original unchanged when no tweak
(Python falsiness also covers an empty tweak string). -/
def create_unique_bundle_id (original_bundle_id : String) (tweak_name : Option String) :
    String :=
  match tweak_name with
  | none => original_bundle_id
  | some t => if t = "" then original_bundle_id else original_bundle_id ++ "." ++ lowerStr t

/-- `convert_app_to_altstore_format(app, known_tweaks)`, restricted to the
fields the claims concern: the display name is kept verbatim, the bundle
identifier is rewritten through `create_unique_bundle_id`, and the
version/download data passes through unchanged. -/
def convert_app_to_altstore_format (app : RepoApp) (known_tweaks : List String) : RepoApp :=
  { name := app.name,
    bundleIdentifier :=
      create_unique_bundle_id app.bundleIdentifier
        (extract_tweak_from_name app.name known_tweaks),
    version := app.version,
    downloadURL := app.downloadURL }

/-- Modelled from the spec's words for the C10 comparison: "the app's name
ends in a parenthetical whose content case-insensitively equals some
entry of the Known-Tweak Registry" (the trailing-parenthetical parse is
the one the merge pass uses). -/
def specEndsInRegistryParen (name : String) (known_tweaks : List String) : Bool :=
  match trailingParen name with
  | some content => known_tweaks.any (fun tw => lowerStr tw = lowerStr content)
  | none => false

/-! ### Helper lemmas -/

lemma splitOn_ne_nil (p : Char → Bool) (l : List Char) : splitOn p l ≠ [] := by
  cases l with
  | nil => simp [splitOn]
  | cons c cs =>
    simp only [splitOn]
    split
    · simp
    · cases h : splitOn p cs <;> simp

lemma splitOn_all_neg (p : Char → Bool) (l : List Char) (h : ∀ c ∈ l, p c = false) :
    splitOn p l = [l] := by
  induction l with
  | nil => rfl
  | cons c cs ih =>
    have hc : p c = false := h c (by simp)
    have ih2 : splitOn p cs = [cs] := ih (fun d hd => h d (by simp [hd]))
    simp [splitOn, hc, ih2]

lemma pyWords_single (l : List Char) (hne : l ≠ []) (h : ∀ c ∈ l, c.isWhitespace = false) :
    pyWords l = [l] := by
  unfold pyWords
  rw [splitOn_all_neg _ _ h]
  simp [hne]

lemma pyWords_nil_iff (l : List Char) :
    pyWords l = [] ↔ ∀ c ∈ l, c.isWhitespace = true := by
  induction l with
  | nil => simp [pyWords, splitOn]
  | cons c cs ih =>
    by_cases hc : c.isWhitespace = true
    · have hstep : pyWords (c :: cs) = pyWords cs := by simp [pyWords, splitOn, hc]
      rw [hstep, ih]
      simp [hc]
    · obtain ⟨t, ts, hts⟩ := List.exists_cons_of_ne_nil (splitOn_ne_nil Char.isWhitespace cs)
      have hstep : pyWords (c :: cs) = (c :: t) :: (ts.filter (fun w => w ≠ [])) := by
        simp [pyWords, splitOn, hc, hts]
      rw [hstep]
      constructor
      · intro habs
        exact absurd habs (by simp)
      · intro hall
        exact absurd (hall c (by simp)) hc

lemma parseParts_none_iff (l : List Char) :
    parseParts l = none ↔ ∀ c ∈ l, c.isWhitespace = true := by
  unfold parseParts
  rw [← pyWords_nil_iff]
  cases h : pyWords l <;> simp

lemma data_ne_nil_of_specParts (v : String) (h : specNumericParts v ≠ []) :
    v.data ≠ [] := by
  intro hd
  apply h
  simp [specNumericParts, hd, splitOn, pyIsdigit]

lemma parseParts_eq_spec (v : String) (hne : v.data ≠ [])
    (h : ∀ c ∈ v.data, c.isWhitespace = false) :
    parseParts v.data = some (specNumericParts v) := by
  unfold parseParts
  rw [pyWords_single v.data hne h]
  rfl

lemma compare_versions_refl (v : String) :
    compare_versions v v none none = false := by
  cases h : parseParts v.data with
  | none => simp [compare_versions, h, tieBreak]
  | some p => simp [compare_versions, h, tieBreak]

lemma lookupA_append_none {α : Type} (m n : List (String × α)) (k : String)
    (h : lookupA m k = none) : lookupA (m ++ n) k = lookupA n k := by
  induction m with
  | nil => rfl
  | cons kv rest ih =>
    by_cases hk : kv.1 = k
    · simp [lookupA, hk] at h
    · have h2 : lookupA rest k = none := by simpa [lookupA, hk] using h
      simp only [List.cons_append, lookupA, if_neg hk]
      exact ih h2

lemma lookupA_eq_none_iff {α : Type} (m : List (String × α)) (k : String) :
    lookupA m k = none ↔ k ∉ m.map Prod.fst := by
  induction m with
  | nil => simp [lookupA]
  | cons kv rest ih =>
    by_cases h : kv.1 = k
    · simp [lookupA, h]
    · simp only [lookupA, if_neg h, List.map_cons, List.mem_cons, ih]
      constructor
      · intro hn habs
        rcases habs with habs | habs
        · exact h habs.symm
        · exact hn habs
      · intro hn habs
        exact hn (Or.inr habs)

lemma updateA_keys {α : Type} (m : List (String × α)) (k : String) (v : α) :
    (updateA m k v).map Prod.fst = m.map Prod.fst := by
  induction m with
  | nil => rfl
  | cons kv rest ih =>
    by_cases h : kv.1 = k <;> simp [updateA, h, ih]

lemma pass1step_hit (s : P1State) (o : Obs) (e : P1Entry)
    (hl : lookupA s.map (unique_app_key o) = some e) :
    pass1step s o =
      if compare_versions o.version e.version (some o.timestamp) (some e.timestamp) then
        { map := updateA s.map (unique_app_key o)
            ⟨o.filename, o.version, o.tweak, o.timestamp, some e.filename⟩,
          deleted := s.deleted ++ [e.filename] }
      else s := by
  simp [pass1step, hl]

lemma pass1step_miss (s : P1State) (o : Obs)
    (hl : lookupA s.map (unique_app_key o) = none) :
    pass1step s o =
      { map := s.map ++ [(unique_app_key o, ⟨o.filename, o.version, o.tweak, o.timestamp, none⟩)],
        deleted := s.deleted } := by
  simp [pass1step, hl]

lemma pass1step_keys_nodup (s : P1State) (o : Obs)
    (h : (s.map.map Prod.fst).Nodup) : ((pass1step s o).map.map Prod.fst).Nodup := by
  cases hl : lookupA s.map (unique_app_key o) with
  | some e =>
    rw [pass1step_hit s o e hl]
    split
    · simpa [updateA_keys] using h
    · exact h
  | none =>
    have hnotin := (lookupA_eq_none_iff s.map (unique_app_key o)).mp hl
    rw [pass1step_miss s o hl]
    simp only [List.map_append, List.map_cons, List.map_nil]
    refine List.Nodup.append h (List.nodup_singleton _) ?_
    intro x hx hx2
    simp only [List.mem_singleton] at hx2
    subst hx2
    exact hnotin hx

lemma pass1_foldl_nodup (obs : List Obs) (s : P1State)
    (h : (s.map.map Prod.fst).Nodup) :
    (((obs.foldl pass1step s).map).map Prod.fst).Nodup := by
  induction obs generalizing s with
  | nil => exact h
  | cons o rest ih => exact ih _ (pass1step_keys_nodup s o h)

lemma pass2step_hit (m : List (String × P2Entry)) (a : RepoApp) (e : P2Entry)
    (hl : lookupA m (existing_app_key a) = some e) :
    pass2step m a =
      if compare_versions a.version (entryVersion e) none none then
        updateA m (existing_app_key a) (.existing a)
      else m := by
  simp [pass2step, hl]

lemma pass2step_miss (m : List (String × P2Entry)) (a : RepoApp)
    (hl : lookupA m (existing_app_key a) = none) :
    pass2step m a = m ++ [(existing_app_key a, .existing a)] := by
  simp [pass2step, hl]

lemma keepExisting_cases (assets : List String) (a : RepoApp) :
    keepExisting assets a =
      if decide (a.downloadURL ≠ "") && decide (urlDecode (lastSegment a.downloadURL) ∈ assets)
      then some a else none := by
  unfold keepExisting
  by_cases h1 : a.downloadURL = "" <;>
    by_cases h2 : urlDecode (lastSegment a.downloadURL) ∈ assets <;>
      simp [h1, h2]

lemma filterMap_guard {α : Type} (p : α → Bool) (l : List α) :
    l.filterMap (fun a => if p a then some a else none) = l.filter p := by
  induction l with
  | nil => rfl
  | cons a rest ih =>
    by_cases h : p a <;> simp [List.filterMap_cons, List.filter_cons, h, ih]

lemma buildFinal_existing (bn : P1Entry → Option RepoApp) (assets : List String)
    (apps : List RepoApp) :
    buildFinalApps bn assets (apps.map (fun a => (existing_app_key a, P2Entry.existing a)))
      = apps.filter (fun a =>
          decide (a.downloadURL ≠ "") &&
            decide (urlDecode (lastSegment a.downloadURL) ∈ assets)) := by
  unfold buildFinalApps
  rw [List.filterMap_map]
  have hfun : ((fun kv : String × P2Entry =>
        match kv.2 with
        | .existing a => keepExisting assets a
        | .fresh e => bn e) ∘ (fun a => (existing_app_key a, P2Entry.existing a)))
      = fun a => keepExisting assets a := rfl
  rw [hfun]
  calc apps.filterMap (fun a => keepExisting assets a)
      = apps.filterMap (fun a =>
          if decide (a.downloadURL ≠ "") &&
              decide (urlDecode (lastSegment a.downloadURL) ∈ assets)
          then some a else none) := by
        simp only [keepExisting_cases]
    _ = _ := filterMap_guard _ apps

lemma pass2_all_new (apps : List RepoApp) (m : List (String × P2Entry))
    (hfresh : ∀ a ∈ apps, lookupA m (existing_app_key a) = none)
    (hnodup : (apps.map existing_app_key).Nodup) :
    pass2 m apps = m ++ apps.map (fun a => (existing_app_key a, P2Entry.existing a)) := by
  induction apps generalizing m with
  | nil => simp [pass2]
  | cons a rest ih =>
    have ha : lookupA m (existing_app_key a) = none := hfresh a (by simp)
    rw [List.map_cons] at hnodup
    have hnodup2 := List.nodup_cons.mp hnodup
    have hfresh2 : ∀ b ∈ rest,
        lookupA (m ++ [(existing_app_key a, P2Entry.existing a)]) (existing_app_key b)
          = none := by
      intro b hb
      have hne : existing_app_key a ≠ existing_app_key b := by
        intro he
        exact hnodup2.1 (he ▸ List.mem_map_of_mem existing_app_key hb)
      rw [lookupA_append_none _ _ _ (hfresh b (by simp [hb]))]
      simp [lookupA, hne]
    have hstep : pass2 m (a :: rest)
        = pass2 (m ++ [(existing_app_key a, P2Entry.existing a)]) rest := by
      simp only [pass2, List.foldl_cons, pass2step_miss m a ha]
    rw [hstep, ih _ hfresh2 hnodup2.2]
    simp

/-! ### Claims -/

/-- Claim C1, counterexample. The claim asserts that for every pair of
version strings with at least one numeric token each, `compare_versions`
implements the spec's reference definition (split the whole string on
`.` and `-`, keep numeric tokens, zero-pad, compare). It does not: the
code only parses the first whitespace-delimited word. At
`"1.2 9.9"` vs `"1.3"` both strings have numeric tokens under the
reference definition, the reference comparison yields `true` (tuples
`[1,9]` vs `[1,3]`), but the code compares `[1,2]` vs `[1,3]` and yields
`false`. -/
theorem C1_counterexample :
    compare_versions "1.2 9.9" "1.3" none none = false ∧
    specIsNewer "1.2 9.9" "1.3" none none = true ∧
    specNumericParts "1.2 9.9" ≠ [] ∧
    specNumericParts "1.3" ≠ [] := by
  decide

/-- Claim C1 (corrected): `compare_versions` implements the spec's numeric
reference definition on the first whitespace-delimited word of each
version; in particular, for version strings without internal whitespace
that contain at least one numeric token it agrees with the reference
definition exactly (including the timestamp tie-break on equal padded
tuples and `false` without timestamps). Moreover `compare_versions(v, v)`
is `false` for every `v`, and `compare_versions("2.21", "2.2")` is
`true`. -/
theorem C1_amended :
    (∀ (v1 v2 : String) (t1 t2 : Option Int),
        (∀ c ∈ v1.data, c.isWhitespace = false) →
        (∀ c ∈ v2.data, c.isWhitespace = false) →
        specNumericParts v1 ≠ [] → specNumericParts v2 ≠ [] →
        compare_versions v1 v2 t1 t2 = specIsNewer v1 v2 t1 t2)
    ∧ (∀ v : String, compare_versions v v none none = false)
    ∧ compare_versions "2.21" "2.2" none none = true := by
  refine ⟨?_, compare_versions_refl, by decide⟩
  intro v1 v2 t1 t2 h1 h2 hn1 hn2
  have p1 := parseParts_eq_spec v1 (data_ne_nil_of_specParts v1 hn1) h1
  have p2 := parseParts_eq_spec v2 (data_ne_nil_of_specParts v2 hn2) h2
  simp [compare_versions, p1, p2, specIsNewer]

/-- Claim C1, witness: the amended equivalence evaluated at
`("2.21", "2.2")`, discharging the whitespace-freeness and nonempty-token
hypotheses there. -/
theorem C1_witness :
    compare_versions "2.21" "2.2" none none = specIsNewer "2.21" "2.2" none none :=
  C1_amended.1 "2.21" "2.2" none none (by decide) (by decide) (by decide) (by decide)

/-- Claim C2, counterexample. The claim asserts that garbage input such as
`"abc"` (no numeric tokens) falls back to plain string comparison. It
does not: `"abc"`-like strings raise no exception — the list
comprehension simply yields an empty tuple, so two distinct garbage
strings compare as equal tuples and the result is the timestamp
tie-break (here `false`), whereas plain string comparison
`"abd" > "abc"` is `true`. -/
theorem C2_counterexample :
    compare_versions "abd" "abc" none none = false ∧
    parseParts "abd".data = some [] ∧
    parseParts "abc".data = some [] ∧
    pyStrGt "abd" "abc" = true := by
  decide

/-- Claim C2 (corrected): `compare_versions` is total (the modelled `try`
body is `Option`-valued and the `except` branch catches the only possible
failure), but the string-comparison fallback is reached only when the
`try` body raises, which happens exactly when a version string is empty
or whitespace-only (`v.split()[0]` raises `IndexError`); garbage input
such as `"abc"` that yields no numeric tokens stays on the numeric path,
where both empty tuples compare equal and the timestamp tie-break
decides. When the fallback is reached, it is plain string comparison
`a > b` with the timestamp tie-break on equal strings, as claimed. -/
theorem C2_amended :
    (∀ v : String, parseParts v.data = none ↔ ∀ c ∈ v.data, c.isWhitespace = true)
    ∧ (∀ (v1 v2 : String) (t1 t2 : Option Int),
        parseParts v1.data = some [] → parseParts v2.data = some [] →
        compare_versions v1 v2 t1 t2 = tieBreak t1 t2)
    ∧ (∀ (v1 v2 : String) (t1 t2 : Option Int),
        (parseParts v1.data = none ∨ parseParts v2.data = none) →
        compare_versions v1 v2 t1 t2 =
          if v1 = v2 then tieBreak t1 t2 else pyStrGt v1 v2) := by
  refine ⟨fun v => parseParts_none_iff v.data, ?_, ?_⟩
  · intro v1 v2 t1 t2 h1 h2
    simp [compare_versions, h1, h2, padZeros]
  · intro v1 v2 t1 t2 h
    rcases h with h | h
    · cases h2 : parseParts v2.data <;> simp [compare_versions, h, h2]
    · cases h1 : parseParts v1.data <;> simp [compare_versions, h, h1]

/-- Claim C2, witness: the no-numeric-token clause evaluated at
`("abc", "abd")`, discharging the empty-tuple hypotheses there. -/
theorem C2_witness :
    compare_versions "abc" "abd" none none = tieBreak none none :=
  C2_amended.2.1 "abc" "abd" none none (by decide) (by decide)

/-- Claim C3 (confirmed): in deduplication Pass 1, exactly one entry
survives per identityKey (the running map's keys are always distinct);
on a key collision the candidate replaces the resident iff
`compare_versions(candidate, resident, tCand, tRes)` holds (which covers
the equal-version strictly-newer-timestamp case), in which case the
resident's binary is deleted and its filename remembered as
`old_filename`, and otherwise the candidate is discarded; and in the
concrete `com.x.app` 404.0.0/405.1.0 scenario, in either arrival order,
exactly the 405.1.0 entry survives. -/
theorem C3_pass1_dedup :
    (∀ obs : List Obs, (((pass1 obs).map).map Prod.fst).Nodup)
    ∧ (∀ (s : P1State) (o : Obs) (e : P1Entry),
        lookupA s.map (unique_app_key o) = some e →
        pass1step s o =
          if compare_versions o.version e.version (some o.timestamp) (some e.timestamp) then
            { map := updateA s.map (unique_app_key o)
                ⟨o.filename, o.version, o.tweak, o.timestamp, some e.filename⟩,
              deleted := s.deleted ++ [e.filename] }
          else s)
    ∧ pass1 [⟨"com.x.app", "404.0.0", none, "x404.ipa", 100⟩,
             ⟨"com.x.app", "405.1.0", none, "x405.ipa", 200⟩]
        = ⟨[("com.x.app", ⟨"x405.ipa", "405.1.0", none, 200, some "x404.ipa"⟩)],
           ["x404.ipa"]⟩
    ∧ pass1 [⟨"com.x.app", "405.1.0", none, "x405.ipa", 200⟩,
             ⟨"com.x.app", "404.0.0", none, "x404.ipa", 100⟩]
        = ⟨[("com.x.app", ⟨"x405.ipa", "405.1.0", none, 200, none⟩)], []⟩ := by
  refine ⟨?_, pass1step_hit, by decide, by decide⟩
  intro obs
  exact pass1_foldl_nodup obs ⟨[], []⟩ List.nodup_nil

/-- Claim C3, witness: the replacement step evaluated at the concrete
404.0.0-resident / 405.1.0-candidate state, discharging the lookup
hypothesis there. -/
theorem C3_witness :
    pass1step ⟨[("com.x.app", ⟨"x404.ipa", "404.0.0", none, 100, none⟩)], []⟩
        ⟨"com.x.app", "405.1.0", none, "x405.ipa", 200⟩
      = if compare_versions "405.1.0" "404.0.0" (some 200) (some 100) then
          { map := updateA [("com.x.app", ⟨"x404.ipa", "404.0.0", none, 100, none⟩)]
              "com.x.app" ⟨"x405.ipa", "405.1.0", none, 200, some "x404.ipa"⟩,
            deleted := [] ++ ["x404.ipa"] }
        else ⟨[("com.x.app", ⟨"x404.ipa", "404.0.0", none, 100, none⟩)], []⟩ :=
  C3_pass1_dedup.2.1 ⟨[("com.x.app", ⟨"x404.ipa", "404.0.0", none, 100, none⟩)], []⟩
    ⟨"com.x.app", "405.1.0", none, "x405.ipa", 200⟩
    ⟨"x404.ipa", "404.0.0", none, 100, none⟩ (by decide)

/-- Claim C4, counterexample. The claim asserts that on a version tie in
the Pass-2 merge the existing published entry wins. It does not: on a
tie `compare_versions(existing, new)` is `false`, so the `else` branch
keeps the Pass-1 (new) entry. Concretely, with a Pass-1 entry at version
`"1.2"` and an existing catalog entry at the same key and version, the
map still holds the fresh Pass-1 entry after the merge step. -/
theorem C4_counterexample :
    existing_app_key ⟨"App", "com.x.app", "1.2", "http://x/r/old.ipa"⟩ = "com.x.app" ∧
    pass2step [("com.x.app", .fresh ⟨"new.ipa", "1.2", none, 5, none⟩)]
        ⟨"App", "com.x.app", "1.2", "http://x/r/old.ipa"⟩
      = [("com.x.app", .fresh ⟨"new.ipa", "1.2", none, 5, none⟩)] ∧
    lookupA (pass2step [("com.x.app", .fresh ⟨"new.ipa", "1.2", none, 5, none⟩)]
        ⟨"App", "com.x.app", "1.2", "http://x/r/old.ipa"⟩) "com.x.app"
      = some (.fresh ⟨"new.ipa", "1.2", none, 5, none⟩) := by
  refine ⟨by decide, by decide, by decide⟩

/-- Claim C4 (corrected): in the Pass-2 merge, when an identityKey is
present in both the published catalog and the Pass-1 map, the existing
entry replaces the Pass-1 entry iff `compare_versions(existing, new)`
holds (existing strictly newer per the comparator, without timestamps);
on a version tie the *new* observation wins — the map is left holding the
Pass-1 entry. -/
theorem C4_amended :
    (∀ (m : List (String × P2Entry)) (a : RepoApp) (e : P2Entry),
        lookupA m (existing_app_key a) = some e →
        pass2step m a =
          if compare_versions a.version (entryVersion e) none none then
            updateA m (existing_app_key a) (.existing a)
          else m)
    ∧ (∀ (m : List (String × P2Entry)) (a : RepoApp) (e : P2Entry),
        lookupA m (existing_app_key a) = some e →
        a.version = entryVersion e →
        pass2step m a = m) := by
  refine ⟨pass2step_hit, ?_⟩
  intro m a e hl hv
  have hc : compare_versions a.version (entryVersion e) none none = false := by
    rw [hv]; exact compare_versions_refl _
  rw [pass2step_hit m a e hl, hc]
  simp

/-- Claim C4, witness: the tie clause evaluated at a concrete map and
existing entry with equal versions, discharging both hypotheses there. -/
theorem C4_witness :
    pass2step [("com.x.app", .fresh ⟨"n.ipa", "2.0", none, 1, none⟩)]
        ⟨"App", "com.x.app", "2.0", "u"⟩
      = [("com.x.app", .fresh ⟨"n.ipa", "2.0", none, 1, none⟩)] :=
  C4_amended.2 [("com.x.app", .fresh ⟨"n.ipa", "2.0", none, 1, none⟩)]
    ⟨"App", "com.x.app", "2.0", "u"⟩ (.fresh ⟨"n.ipa", "2.0", none, 1, none⟩)
    (by decide) (by decide)

/-- Claim C5, counterexample. The claim asserts that a tweak name not
case-insensitively present in the Known-Tweak Registry never survives as
a non-null tweak on the reconciled record. The scraper performs no such
code-level check: `best_tweak` is the AI-returned `tweak_name` verbatim
(filename tweak detection is disabled), so an AI result carrying
`"FakeTweak"` — absent from the registry per `is_tweak_in_list` —
survives as the record's tweak and lands in the running map. -/
theorem C5_counterexample :
    best_tweak "Some message"
        (some ⟨some "Instagram", some "1.2", some "FakeTweak", some "com.x.app", none⟩)
      = some "FakeTweak" ∧
    is_tweak_in_list "FakeTweak" ["BHInsta", "Theta", "TikTokLRD"] = false ∧
    (pass1 [⟨"com.x.app", "1.2", some "FakeTweak", "f.ipa", 7⟩]).map
      = [("com.x.app:FakeTweak", ⟨"f.ipa", "1.2", some "FakeTweak", 7, none⟩)] := by
  refine ⟨by decide, by decide, by decide⟩

/-- Claim C5 (corrected): the scraper attaches the AI-returned tweak to
the reconciled record without any registry validation — `best_tweak`
equals the AI `tweak_name` verbatim whenever it is non-null and nonempty,
is null when the AI returned null/failed or the message was empty, and a
record carrying any such tweak (registry member or not) enters the
running map under the key `bundleId ++ ":" ++ tweak`. Registry
enforcement exists only as an instruction inside the AI prompt, not in
the code. -/
theorem C5_amended :
    (∀ (msg : String) (m : AIMeta) (t : String),
        msg ≠ "" → m.tweak_name = some t → t ≠ "" →
        best_tweak msg (some m) = some t)
    ∧ (∀ (msg : String) (m : AIMeta), m.tweak_name = none → best_tweak msg (some m) = none)
    ∧ (∀ msg : String, best_tweak msg none = none)
    ∧ (∀ (o : Obs) (t : String), o.tweak = some t → t ≠ "" →
        lookupA (pass1 [o]).map (o.bundle_id ++ ":" ++ t)
          = some ⟨o.filename, o.version, some t, o.timestamp, none⟩) := by
  refine ⟨?_, ?_, ?_, ?_⟩
  · intro msg m t hmsg ht hte
    simp [best_tweak, hmsg, ht, hte]
  · intro msg m ht
    simp [best_tweak, ht]
  · intro msg
    simp [best_tweak]
  · intro o t ht hte
    have hk : unique_app_key o = o.bundle_id ++ ":" ++ t := by
      simp [unique_app_key, ht, hte]
    simp [pass1, pass1step, lookupA, hk, ht]

/-- Claim C5, witness: the verbatim-pass-through clause evaluated at a
concrete AI result with tweak `"NotARegisteredTweak"`. -/
theorem C5_witness :
    best_tweak "msg" (some ⟨none, none, some "NotARegisteredTweak", none, none⟩)
      = some "NotARegisteredTweak" :=
  C5_amended.1 "msg" ⟨none, none, some "NotARegisteredTweak", none, none⟩
    "NotARegisteredTweak" (by decide) (by decide) (by decide)

/-- Claim C6 (confirmed): in the batch duplicate detector, with a
nonempty registry, an AI-proposed group whose `keep` filename implies
(by the word-boundary registry match) a tweak that differs
case-insensitively from the tweak implied by some `delete` filename is
rejected in full — it is absent from the validated groups that drive
storage deletions — and every group that does survive validation has all
of its `delete` filenames implying exactly the `keep` filename's tweak. -/
theorem C6_group_validation :
    (∀ (known : List String) (groups : List Group) (g : Group),
        known ≠ [] → g ∈ groups →
        (∃ d ∈ g.delete,
          lowerOpt (extract_tweak_from_filename g.keep known) ≠
            lowerOpt (extract_tweak_from_filename d known)) →
        g ∉ validateGroups known groups)
    ∧ (∀ (known : List String) (groups : List Group) (g : Group),
        known ≠ [] → g ∈ validateGroups known groups →
        g ∈ groups ∧ ∀ d ∈ g.delete,
          lowerOpt (extract_tweak_from_filename g.keep known) =
            lowerOpt (extract_tweak_from_filename d known)) := by
  constructor
  · rintro known groups g hk hg ⟨d, hd, hne⟩ hmem
    unfold validateGroups at hmem
    rw [if_neg hk] at hmem
    have hval := (List.mem_filter.mp hmem).2
    unfold validateGroup at hval
    rw [List.all_eq_true] at hval
    exact hne (by simpa using hval d hd)
  · intro known groups g hk hmem
    unfold validateGroups at hmem
    rw [if_neg hk] at hmem
    obtain ⟨hg, hval⟩ := List.mem_filter.mp hmem
    refine ⟨hg, ?_⟩
    intro d hd
    unfold validateGroup at hval
    rw [List.all_eq_true] at hval
    simpa using hval d hd

/-- Claim C6, witness: a concrete group whose `keep` implies `BHInsta`
but whose single `delete` implies `Theta` is rejected, with each
hypothesis discharged at that input. -/
theorem C6_witness :
    (⟨"Instagram BHInsta v405.ipa", ["Instagram Theta v404.ipa"], some "BHInsta", "r"⟩ : Group)
      ∉ validateGroups ["BHInsta", "Theta"]
          [⟨"Instagram BHInsta v405.ipa", ["Instagram Theta v404.ipa"], some "BHInsta", "r"⟩] :=
  C6_group_validation.1 ["BHInsta", "Theta"]
    [⟨"Instagram BHInsta v405.ipa", ["Instagram Theta v404.ipa"], some "BHInsta", "r"⟩]
    ⟨"Instagram BHInsta v405.ipa", ["Instagram Theta v404.ipa"], some "BHInsta", "r"⟩
    (by decide) (by decide)
    ⟨"Instagram Theta v404.ipa", by decide, by decide⟩

/-- Claim C7, counterexample. The claim asserts that the two tweak
variants are addressed by *case-normalized* identityKeys
`"com.x.app:bhinsta"` and `"com.x.app:theta"`. The code performs no case
normalization when forming `unique_app_key`: after processing the two
observations, lookups under the lowercased keys fail while the
original-case keys `"com.x.app:BHInsta"` and `"com.x.app:Theta"`
succeed. -/
theorem C7_counterexample :
    lookupA (pass1 [⟨"com.x.app", "1.2", some "BHInsta", "bh.ipa", 100⟩,
                    ⟨"com.x.app", "1.2", some "Theta", "th.ipa", 100⟩]).map
        "com.x.app:bhinsta" = none ∧
    lookupA (pass1 [⟨"com.x.app", "1.2", some "BHInsta", "bh.ipa", 100⟩,
                    ⟨"com.x.app", "1.2", some "Theta", "th.ipa", 100⟩]).map
        "com.x.app:theta" = none ∧
    lookupA (pass1 [⟨"com.x.app", "1.2", some "BHInsta", "bh.ipa", 100⟩,
                    ⟨"com.x.app", "1.2", some "Theta", "th.ipa", 100⟩]).map
        "com.x.app:BHInsta" = some ⟨"bh.ipa", "1.2", some "BHInsta", 100, none⟩ ∧
    lookupA (pass1 [⟨"com.x.app", "1.2", some "BHInsta", "bh.ipa", 100⟩,
                    ⟨"com.x.app", "1.2", some "Theta", "th.ipa", 100⟩]).map
        "com.x.app:Theta" = some ⟨"th.ipa", "1.2", some "Theta", 100, none⟩ := by
  refine ⟨by decide, by decide, by decide, by decide⟩

/-- Claim C7 (corrected): two observations with the same bundle identifier
and two distinct registry tweaks produce two distinct catalog entries,
neither superseding the other (no deletion, no `old_filename`), in either
arrival order — but the identityKeys keep the tweaks' original casing,
`"com.x.app:BHInsta"` and `"com.x.app:Theta"`, not lowercased forms; a
tweak-less observation's identityKey is the bare bundle identifier. -/
theorem C7_amended :
    (pass1 [⟨"com.x.app", "1.2", some "BHInsta", "bh.ipa", 100⟩,
            ⟨"com.x.app", "1.2", some "Theta", "th.ipa", 100⟩]
      = ⟨[("com.x.app:BHInsta", ⟨"bh.ipa", "1.2", some "BHInsta", 100, none⟩),
          ("com.x.app:Theta", ⟨"th.ipa", "1.2", some "Theta", 100, none⟩)], []⟩)
    ∧ (pass1 [⟨"com.x.app", "1.2", some "Theta", "th.ipa", 100⟩,
              ⟨"com.x.app", "1.2", some "BHInsta", "bh.ipa", 100⟩]
      = ⟨[("com.x.app:Theta", ⟨"th.ipa", "1.2", some "Theta", 100, none⟩),
          ("com.x.app:BHInsta", ⟨"bh.ipa", "1.2", some "BHInsta", 100, none⟩)], []⟩)
    ∧ (∀ o : Obs, o.tweak = none → unique_app_key o = o.bundle_id) := by
  refine ⟨by decide, by decide, ?_⟩
  intro o ho
  simp [unique_app_key, ho]

/-- Claim C7, witness: the bare-key clause evaluated at a concrete
tweak-less observation. -/
theorem C7_witness :
    unique_app_key ⟨"com.x.app", "1.2", none, "f.ipa", 0⟩ = "com.x.app" :=
  C7_amended.2.2 ⟨"com.x.app", "1.2", none, "f.ipa", 0⟩ (by decide)

/-- Claim C8 (confirmed): during republish, a carried-forward entry is
appended (unchanged, in map order) iff it has a download URL whose
URL-decoded last segment appears in the fresh release-asset listing;
otherwise it is silently dropped — `keepExisting` returns the entry
itself or `none`, never a modified entry and never an error, and over a
map of carried-forward entries the build loop is exactly the
corresponding filter of the catalog list. -/
theorem C8_republish_drop :
    (∀ (assets : List String) (a : RepoApp),
        keepExisting assets a = some a ↔
          a.downloadURL ≠ "" ∧ urlDecode (lastSegment a.downloadURL) ∈ assets)
    ∧ (∀ (assets : List String) (a : RepoApp),
        keepExisting assets a = some a ∨ keepExisting assets a = none)
    ∧ (∀ (bn : P1Entry → Option RepoApp) (assets : List String) (apps : List RepoApp),
        buildFinalApps bn assets
            (apps.map (fun a => (existing_app_key a, P2Entry.existing a)))
          = apps.filter (fun a =>
              decide (a.downloadURL ≠ "") &&
                decide (urlDecode (lastSegment a.downloadURL) ∈ assets))) := by
  refine ⟨?_, ?_, buildFinal_existing⟩
  · intro assets a
    rw [keepExisting_cases]
    by_cases h1 : a.downloadURL = "" <;>
      by_cases h2 : urlDecode (lastSegment a.downloadURL) ∈ assets <;>
        simp [h1, h2]
  · intro assets a
    rw [keepExisting_cases]
    split
    · exact Or.inl rfl
    · exact Or.inr rfl

/-- Claim C8, witness: the keep/drop criterion evaluated at a concrete
entry whose URL-encoded filename is present in the listing. -/
theorem C8_witness :
    keepExisting ["A App.ipa"] ⟨"A", "com.a", "1.0", "http://x/r/A%20App.ipa"⟩
      = some ⟨"A", "com.a", "1.0", "http://x/r/A%20App.ipa"⟩ :=
  (C8_republish_drop.1 ["A App.ipa"] ⟨"A", "com.a", "1.0", "http://x/r/A%20App.ipa"⟩).mpr
    ⟨by decide, by decide⟩

/-- Claim C9 (confirmed): re-running the Pass-2 merge with no new
observations (the empty Pass-1 map) over a previously published catalog
— one whose identityKeys are distinct, as the publisher guarantees — and
whose backing binaries are all present in the fresh asset listing yields
exactly the same `apps` array, every entry carried forward unchanged and
in order, for any behaviour of the fresh-entry builder. -/
theorem C9_merge_idempotent (bn : P1Entry → Option RepoApp) (assets : List String)
    (apps : List RepoApp)
    (hnodup : (apps.map existing_app_key).Nodup)
    (hpresent : ∀ a ∈ apps,
      a.downloadURL ≠ "" ∧ urlDecode (lastSegment a.downloadURL) ∈ assets) :
    buildFinalApps bn assets (pass2 (liftP1 (pass1 []).map) apps) = apps := by
  have h0 : liftP1 (pass1 []).map = [] := rfl
  rw [h0, pass2_all_new apps [] (fun a _ => rfl) hnodup, List.nil_append,
    buildFinal_existing]
  apply List.filter_eq_self.mpr
  intro a ha
  obtain ⟨h1, h2⟩ := hpresent a ha
  simp [h1, h2]

/-- Claim C9, witness: idempotence evaluated on a concrete two-entry
catalog with distinct keys and both binaries listed, discharging both
hypotheses there. -/
theorem C9_witness :
    buildFinalApps (fun _ => none) ["A App.ipa", "B.ipa"]
        (pass2 (liftP1 (pass1 []).map)
          [⟨"A", "com.a", "1.0", "http://x/r/A%20App.ipa"⟩,
           ⟨"B", "com.b", "2.0", "http://x/r/B.ipa"⟩])
      = [⟨"A", "com.a", "1.0", "http://x/r/A%20App.ipa"⟩,
         ⟨"B", "com.b", "2.0", "http://x/r/B.ipa"⟩] :=
  C9_merge_idempotent (fun _ => none) ["A App.ipa", "B.ipa"]
    [⟨"A", "com.a", "1.0", "http://x/r/A%20App.ipa"⟩,
     ⟨"B", "com.b", "2.0", "http://x/r/B.ipa"⟩]
    (by decide) (by decide)

/-- Claim C10, counterexample. The claim asserts the output bundle
identifier differs from the input iff the name ends in a parenthetical
whose content is a registry tweak. The regex
`^(.+?)\s*\(([^)]+)\)\s*$` additionally requires at least one character
before the parenthetical and tolerates trailing whitespace after it, so
the iff fails in both directions: `"(Theta)"` ends in a registry
parenthetical but the bundle identifier is left unchanged, while
`"Insta (Theta) "` (trailing space, so it does not end in a
parenthetical) does get its bundle identifier rewritten. -/
theorem C10_counterexample :
    (convert_app_to_altstore_format ⟨"(Theta)", "com.x.app", "1.0", "u"⟩
        ["Theta"]).bundleIdentifier = "com.x.app" ∧
    specEndsInRegistryParen "(Theta)" ["Theta"] = true ∧
    (convert_app_to_altstore_format ⟨"Insta (Theta) ", "com.x.app", "1.0", "u"⟩
        ["Theta"]).bundleIdentifier = "com.x.app.theta" ∧
    specEndsInRegistryParen "Insta (Theta) " ["Theta"] = false := by
  refine ⟨by decide, by decide, by decide, by decide⟩

/-- Claim C10 (corrected): in the AltStore conversion the display name is
never altered, and the output bundle identifier differs from the input
iff `extract_tweak_from_name` finds a registry tweak — i.e. the name
matches `^(.+?)\s*\(([^)]+)\)\s*$` (a trailing parenthetical preceded by
at least one character, with optional trailing whitespace) whose stripped
content case-insensitively equals a registry entry — in which case the
output is the original identifier + `"."` + the lowercased registry
tweak; any tweak so found is a member of the registry. -/
theorem C10_amended (app : RepoApp) (known : List String) :
    (convert_app_to_altstore_format app known).name = app.name
    ∧ ((convert_app_to_altstore_format app known).bundleIdentifier ≠ app.bundleIdentifier ↔
        ∃ t, extract_tweak_from_name app.name known = some t ∧ t ≠ "" ∧
          (convert_app_to_altstore_format app known).bundleIdentifier
            = app.bundleIdentifier ++ "." ++ lowerStr t)
    ∧ (∀ t, extract_tweak_from_name app.name known = some t → t ∈ known) := by
  refine ⟨rfl, ?_, ?_⟩
  · cases h : extract_tweak_from_name app.name known with
    | none =>
      simp [convert_app_to_altstore_format, create_unique_bundle_id, h]
    | some t =>
      by_cases hte : t = ""
      · simp [convert_app_to_altstore_format, create_unique_bundle_id, h, hte]
      · have hb : (convert_app_to_altstore_format app known).bundleIdentifier
            = app.bundleIdentifier ++ "." ++ lowerStr t := by
          simp [convert_app_to_altstore_format, create_unique_bundle_id, h, hte]
        rw [hb]
        have hne : app.bundleIdentifier ++ "." ++ lowerStr t ≠ app.bundleIdentifier := by
          intro habs
          have hlen := congrArg String.length habs
          have hdot : (".").length = 1 := rfl
          simp [String.length_append, hdot] at hlen
          omega
        constructor
        · intro _
          exact ⟨t, rfl, hte, rfl⟩
        · intro _
          exact hne
  · intro t ht
    unfold extract_tweak_from_name at ht
    cases hc : lastParenContent app.name.data with
    | none => rw [hc] at ht; exact absurd ht (by simp)
    | some content =>
      rw [hc] at ht
      exact List.mem_of_find?_eq_some ht

/-- Claim C10, witness: the registry-membership clause evaluated at a
concrete tweaked app name. -/
theorem C10_witness : "Theta" ∈ ["Theta"] :=
  (C10_amended ⟨"Instagram (Theta)", "com.burbn.instagram", "1.0", "u"⟩ ["Theta"]).2.2
    "Theta" (by decide)

end FTRepo
